import Mathlib

/-!
Shallow embedding of `inference_seg_model.py`
(class `EMPatches_Effi_Seg_Inference` and the reconstruction script).

Conventions: Python integers are modelled as `ℤ`, the overlap fraction as `ℚ`
(`math.floor` becomes `Int.floor`), a Python expression that can raise becomes
an `Option` (`none` = exception).  Images are total functions `ℤ → ℤ → ℤ`
(pixel lookup), patch arrays carry their own shape (`SegResult`).
-/

/-- Semantics of Python `range(start, stop, step)`: number of elements.
For `step > 0` this is `max 0 ⌈(stop - start) / step⌉`, and symmetrically
for `step < 0` (per the Python reference: element `i` is `start + step*i`). -/
def pyRangeLen (start stop step : ℤ) : ℕ :=
  if 0 < step then (stop - start + step - 1).toNat / step.toNat
  else if step < 0 then (start - stop + (-step) - 1).toNat / (-step).toNat
  else 0

/-- Semantics of Python `list(range(start, stop, step))`: `none` models the
`ValueError` raised when `step = 0`, otherwise the arithmetic progression
`start, start + step, …` (element `i` is `start + step * i`). -/
def pythonRange (start stop step : ℤ) : Option (List ℤ) :=
  if step = 0 then none
  else some ((List.range (pyRangeLen start stop step)).map (fun i : ℕ => start + step * (i : ℤ)))

/-- Lines 81-86 of the source: `if len(l) == 0 or l[-1] != lastv: l.append(lastv)`.
An empty list has `getLast? = none ≠ some lastv`, so the two conditions collapse
into the single test below. -/
def fixLast (l : List ℤ) (lastv : ℤ) : List ℤ :=
  if l.getLast? = some lastv then l else l ++ [lastv]

/-- Lines 76-86 of the source, for one axis: the start positions
`list(range(0, last+1, step))` followed by the last-value correction, where
`last = dim - window`. -/
def axisOffsets (dim window step : ℤ) : Option (List ℤ) :=
  (pythonRange 0 (dim - window + 1) step).map (fun l => fixLast l (dim - window))

/-- Lines 61-74 of the source: the per-axis step sizes.  `stride` is tested
first (`if stride is not None`), then `overlap` (`elif overlap is not None`),
else the default `1`.  In the overlap branch
`stepSize = windowSize - int(math.floor(windowSize * overlapPercent))`. -/
def stepSizes (windowSizeX windowSizeY windowSizeZ : ℤ) (overlap : Option ℚ)
    (stride : Option ℤ) : ℤ × ℤ × ℤ :=
  match stride with
  | some s => (s, s, s)
  | none =>
    match overlap with
    | some p =>
      (windowSizeX - ⌊(windowSizeX : ℚ) * p⌋,
       windowSizeY - ⌊(windowSizeY : ℚ) * p⌋,
       windowSizeZ - ⌊(windowSizeZ : ℚ) * p⌋)
    | none => (1, 1, 1)

/-- Line 97 of the source: one emitted window
`(yOffset, yOffset+windowSizeY, xOffset, xOffset+windowSizeX)`. -/
structure Offset where
  yStart : ℤ
  yEnd : ℤ
  xStart : ℤ
  xEnd : ℤ
deriving DecidableEq, Repr

/-- The x component of `stepSizes` as computed by `extract_patches`
(window sizes clamped per axis with `min`, lines 57-59 of the source). -/
def stepSizeX (height width depth patchsize : ℤ) (overlap : Option ℚ)
    (stride : Option ℤ) : ℤ :=
  (stepSizes (min patchsize width) (min patchsize height) (min patchsize depth)
    overlap stride).1

/-- The y component of `stepSizes` as computed by `extract_patches`. -/
def stepSizeY (height width depth patchsize : ℤ) (overlap : Option ℚ)
    (stride : Option ℤ) : ℤ :=
  (stepSizes (min patchsize width) (min patchsize height) (min patchsize depth)
    overlap stride).2.1

/-- The z component of `stepSizes` as computed by `extract_patches`. -/
def stepSizeZ (height width depth patchsize : ℤ) (overlap : Option ℚ)
    (stride : Option ℤ) : ℤ :=
  (stepSizes (min patchsize width) (min patchsize height) (min patchsize depth)
    overlap stride).2.2

/-- Lines 54-97 of the source (`EMPatches_Effi_Seg_Inference.extract_patches`),
restricted to its offset computation: window sizes are clamped per axis
(`min patchsize dim`), step sizes come from `stepSizes`, each axis gets its
start-position list from `axisOffsets` (the z list is computed — and can fail —
but is never used to tile, exactly as in the source), and the offsets are
emitted with x as the outer loop and y as the inner loop. -/
def extract_offsets (height width depth patchsize : ℤ) (overlap : Option ℚ)
    (stride : Option ℤ) : Option (List Offset) :=
  match axisOffsets width (min patchsize width) (stepSizeX height width depth patchsize overlap stride),
        axisOffsets height (min patchsize height) (stepSizeY height width depth patchsize overlap stride),
        axisOffsets depth (min patchsize depth) (stepSizeZ height width depth patchsize overlap stride) with
  | some xs, some ys, some _ =>
    some (xs.flatMap fun x => ys.map fun y =>
      Offset.mk y (y + min patchsize height) x (x + min patchsize width))
  | _, _, _ => none

/-- A tiling policy is valid in the sense of the specification when the stride
(if supplied) is at least 1, respectively the overlap fraction (if supplied and
no stride is) lies in `[0, 1)`; with neither argument the default applies. -/
def validPolicy (overlap : Option ℚ) (stride : Option ℤ) : Prop :=
  match stride with
  | some s => 1 ≤ s
  | none =>
    match overlap with
    | some p => 0 ≤ p ∧ p < 1
    | none => True

/-- Strengthened policy (used in the amended coverage claim): a supplied
stride must also not exceed the clamped window size of either tiled axis. -/
def coveragePolicy (patchsize height width : ℤ) (overlap : Option ℚ)
    (stride : Option ℤ) : Prop :=
  match stride with
  | some s => 1 ≤ s ∧ s ≤ min patchsize width ∧ s ≤ min patchsize height
  | none =>
    match overlap with
    | some p => 0 ≤ p ∧ p < 1
    | none => True

/-- Membership of a coordinate in an offset's window. -/
def inWindow (o : Offset) (y x : ℤ) : Prop :=
  o.yStart ≤ y ∧ y < o.yEnd ∧ o.xStart ≤ x ∧ x < o.xEnd

instance (o : Offset) (y x : ℤ) : Decidable (inWindow o y x) := by
  unfold inWindow; infer_instance

/-- A per-patch model result as consumed by the reconstruction loop (lines
144-148 of the source): a 2D array carrying its spatial shape.  The channel
axis is abstracted into a single `ℤ` sample per pixel. -/
structure SegResult where
  h : ℤ
  w : ℤ
  vals : ℤ → ℤ → ℤ

/-- Broadcast compatibility of the numpy slice assignment
`reconstructed_seg_mask[y_start:y_end, x_start:x_end] = y` (line 148): each
spatial dimension of the result must equal the window extent or be 1. -/
def broadcastOk (r : SegResult) (o : Offset) : Prop :=
  (r.h = o.yEnd - o.yStart ∨ r.h = 1) ∧ (r.w = o.xEnd - o.xStart ∨ r.w = 1)

instance (r : SegResult) (o : Offset) : Decidable (broadcastOk r o) := by
  unfold broadcastOk; infer_instance

/-- Line 148 of the source: numpy slice assignment with broadcasting; `none`
models the `ValueError` raised when the shapes are incompatible, otherwise the
window region takes the (possibly broadcast) result values. -/
def numpyAssign (buf : ℤ → ℤ → ℤ) (o : Offset) (r : SegResult) :
    Option (ℤ → ℤ → ℤ) :=
  if broadcastOk r o then
    some (fun yy xx =>
      if inWindow o yy xx then
        r.vals (if r.h = 1 then 0 else yy - o.yStart)
          (if r.w = 1 then 0 else xx - o.xStart)
      else buf yy xx)
  else none

/-- Lines 142-148 of the source: the reconstruction loop.  The `i`-th consumed
result is paired with `indices[i]`; a missing index (`IndexError`, when the
results outnumber the offsets) or an incompatible shape aborts with an
exception (`none`). -/
def reconAux (indices : List Offset) : List SegResult → ℕ → (ℤ → ℤ → ℤ) →
    Option (ℤ → ℤ → ℤ)
  | [], _, buf => some buf
  | r :: rs, i, buf =>
    match indices.get? i with
    | none => none
    | some o =>
      match numpyAssign buf o r with
      | none => none
      | some buf2 => reconAux indices rs (i + 1) buf2

/-- Lines 139-148 of the source: `reconstructed_seg_mask = np.zeros(...)`
followed by the loop writing each consumed result at its offset's region. -/
def reconstructed_seg_mask (indices : List Offset) (results : List SegResult) :
    Option (ℤ → ℤ → ℤ) :=
  reconAux indices results 0 (fun _ _ => 0)

/-- Lines 94-95 of the source: the patch persisted for an offset is
`data[yStart:yEnd, xStart:xEnd]`; under the identity model it is also the
result handed back to the stitcher. -/
def extractResult (data : ℤ → ℤ → ℤ) (o : Offset) : SegResult :=
  SegResult.mk (o.yEnd - o.yStart) (o.xEnd - o.xStart)
    (fun i j => data (o.yStart + i) (o.xStart + j))

/-- Line 93 of the source: `patch_path = ... f"patch_{patch_index}.png"` (the
directory part is common to all patches and does not affect their relative
order). -/
def patchFileName (i : ℕ) : String := "patch_" ++ toString i ++ ".png"

/-- The patch file names of a session producing `n` patches, in creation
(offset-list) order. -/
def patchFileNames (n : ℕ) : List String := (List.range n).map patchFileName

/-- Line 142 of the source: `sorted(os.listdir(patches_path))` — the consumed
order is the lexicographic sort of the file names (Python sorts strings by
code points, as Lean's `String` order does). -/
def sortedPatchFileNames (n : ℕ) : List String :=
  List.insertionSort (fun a b : String => a ≤ b) (patchFileNames n)

/-- The mutable instance state of `EMPatches_Effi_Seg_Inference`
(lines 21-23 of the source): `__init__` sets `self.temp_dir = None`.
Directories are abstracted as natural numbers. -/
structure EMPatchesState where
  temp_dir : Option ℕ

/-- A freshly constructed instance (lines 21-23 of the source). -/
def initState : EMPatchesState := EMPatchesState.mk none

/-- `shutil.rmtree`: removing a directory that does not exist raises
(`none`); otherwise the directory disappears from the file system (modelled
as the list of existing directories). -/
def rmtree (fs : List ℕ) (d : ℕ) : Option (List ℕ) :=
  if d ∈ fs then some (fs.erase d) else none

/-- Lines 25-29 of the source: `cleanup` removes the temporary directory only
when `self.temp_dir` is truthy, then clears the field; otherwise it is a
no-op. -/
def cleanup (st : EMPatchesState) (fs : List ℕ) :
    Option (EMPatchesState × List ℕ) :=
  match st.temp_dir with
  | none => some (st, fs)
  | some d => (rmtree fs d).map (fun fs2 => (EMPatchesState.mk none, fs2))

lemma pythonRange_pos_eq (start stop step : ℤ) (hs : 0 < step) :
    pythonRange start stop step =
      some ((List.range (pyRangeLen start stop step)).map (fun i : ℕ => start + step * (i : ℤ))) := by
  have h : step ≠ 0 := by omega
  simp [pythonRange, h]

lemma lt_pyRangeLen_iff (stop step : ℤ) (hs : 1 ≤ step) (i : ℕ) :
    i < pyRangeLen 0 stop step ↔ step * (i : ℤ) < stop := by
  have h0 : 0 < step := hs
  unfold pyRangeLen
  rw [if_pos h0]
  have hstn : (step.toNat : ℤ) = step := Int.toNat_of_nonneg (by omega)
  have hstpos : 0 < step.toNat := by omega
  rcases le_or_lt stop 0 with hstop | hstop
  · have hnum : (stop - 0 + step - 1).toNat < step.toNat := by omega
    rw [Nat.div_eq_of_lt hnum]
    constructor
    · intro h; exact absurd h (Nat.not_lt_zero i)
    · intro h
      exfalso
      have : (0 : ℤ) ≤ step * (i : ℤ) := mul_nonneg (by omega) (Int.natCast_nonneg i)
      omega
  · rw [Nat.lt_iff_add_one_le, Nat.le_div_iff_mul_le hstpos]
    have hnum : ((stop - 0 + step - 1).toNat : ℤ) = stop + step - 1 := by omega
    constructor
    · intro h
      have h2 := (Nat.cast_le (α := ℤ)).mpr h
      push_cast at h2
      rw [hstn, hnum] at h2
      nlinarith
    · intro h
      have h2 : ((i : ℤ) + 1) * step ≤ stop + step - 1 := by nlinarith
      rw [Int.le_toNat (by omega)]
      push_cast
      rw [hstn]
      linarith

lemma mem_pythonRange_zero (stop step v : ℤ) (l : List ℤ) (hs : 1 ≤ step)
    (hl : pythonRange 0 stop step = some l) :
    v ∈ l ↔ ∃ i : ℕ, i < pyRangeLen 0 stop step ∧ v = step * (i : ℤ) := by
  rw [pythonRange_pos_eq 0 stop step hs] at hl
  have hl2 := Option.some_injective _ hl
  subst hl2
  constructor
  · intro hv
    rcases List.mem_map.mp hv with ⟨i, hi, rfl⟩
    exact ⟨i, List.mem_range.mp hi, by ring⟩
  · rintro ⟨i, hi, rfl⟩
    exact List.mem_map.mpr ⟨i, List.mem_range.mpr hi, by ring⟩

lemma fixLast_ne_nil (l : List ℤ) (lastv : ℤ) : fixLast l lastv ≠ [] := by
  unfold fixLast
  split
  · rename_i h
    intro h2
    rw [h2] at h
    simp at h
  · simp

lemma fixLast_getLast (l : List ℤ) (lastv : ℤ) :
    (fixLast l lastv).getLast? = some lastv := by
  unfold fixLast
  split
  · assumption
  · exact List.getLast?_concat l

lemma self_mem_fixLast (l : List ℤ) (lastv : ℤ) : lastv ∈ fixLast l lastv :=
  List.mem_of_getLast?_eq_some (fixLast_getLast l lastv)

lemma mem_fixLast_of_mem (l : List ℤ) (lastv v : ℤ) (h : v ∈ l) : v ∈ fixLast l lastv := by
  unfold fixLast
  split
  · exact h
  · exact List.mem_append_left _ h

lemma mem_fixLast (l : List ℤ) (lastv v : ℤ) (h : v ∈ fixLast l lastv) :
    v ∈ l ∨ v = lastv := by
  unfold fixLast at h
  split at h
  · exact Or.inl h
  · rcases List.mem_append.mp h with h2 | h2
    · exact Or.inl h2
    · simp at h2
      exact Or.inr h2

lemma axisOffsets_some (dim window step : ℤ) (hs : 1 ≤ step) :
    ∃ l, axisOffsets dim window step = some l := by
  unfold axisOffsets
  rw [pythonRange_pos_eq _ _ _ hs]
  exact ⟨_, rfl⟩

lemma axisOffsets_base (dim window step : ℤ) (l : List ℤ) (hs : 1 ≤ step)
    (hl : axisOffsets dim window step = some l) :
    ∃ base, pythonRange 0 (dim - window + 1) step = some base ∧
      l = fixLast base (dim - window) := by
  unfold axisOffsets at hl
  rw [pythonRange_pos_eq _ _ _ hs, Option.map_some'] at hl
  exact ⟨_, pythonRange_pos_eq _ _ _ hs, (Option.some_injective _ hl).symm⟩

lemma axisOffsets_mem_bounds (dim window step v : ℤ) (l : List ℤ) (hs : 1 ≤ step)
    (hlast : 0 ≤ dim - window) (hl : axisOffsets dim window step = some l) (hv : v ∈ l) :
    0 ≤ v ∧ v ≤ dim - window := by
  obtain ⟨base, hb, rfl⟩ := axisOffsets_base dim window step _ hs hl
  rcases mem_fixLast _ _ _ hv with h | rfl
  · rcases (mem_pythonRange_zero _ _ _ _ hs hb).mp h with ⟨i, hi, rfl⟩
    have h1 := (lt_pyRangeLen_iff _ _ hs i).mp hi
    have h2 : (0 : ℤ) ≤ step * (i : ℤ) := mul_nonneg (by omega) (Int.natCast_nonneg i)
    omega
  · omega

lemma axisOffsets_last (dim window step : ℤ) (l : List ℤ) (hs : 1 ≤ step)
    (hl : axisOffsets dim window step = some l) :
    (dim - window) ∈ l ∧ l ≠ [] ∧ l.getLast? = some (dim - window) := by
  obtain ⟨base, _, rfl⟩ := axisOffsets_base dim window step _ hs hl
  exact ⟨self_mem_fixLast _ _, fixLast_ne_nil _ _, fixLast_getLast _ _⟩

lemma axisOffsets_cover (dim window step x : ℤ) (l : List ℤ)
    (hs : 1 ≤ step) (hw : 1 ≤ window) (hwd : window ≤ dim)
    (hcase : step ≤ window ∨ window = dim)
    (hl : axisOffsets dim window step = some l)
    (hx0 : 0 ≤ x) (hxd : x < dim) :
    ∃ s ∈ l, s ≤ x ∧ x < s + window := by
  obtain ⟨base, hb, rfl⟩ := axisOffsets_base dim window step _ hs hl
  rcases le_or_lt (dim - window) x with hge | hlt
  · exact ⟨dim - window, self_mem_fixLast _ _, hge, by omega⟩
  · have hstep_le : step ≤ window := by
      rcases hcase with h | h
      · exact h
      · omega
    set i : ℕ := x.toNat / step.toNat with hi
    have hxt : (x.toNat : ℤ) = x := Int.toNat_of_nonneg hx0
    have hst : (step.toNat : ℤ) = step := Int.toNat_of_nonneg (by omega)
    have hstpos : 0 < step.toNat := by omega
    have h1 : i * step.toNat ≤ x.toNat := by
      rw [hi]; exact Nat.div_mul_le_self _ _
    have hdm : step.toNat * i + x.toNat % step.toNat = x.toNat := by
      rw [hi]; exact Nat.div_add_mod x.toNat step.toNat
    have hmod : x.toNat % step.toNat < step.toNat := Nat.mod_lt _ hstpos
    have h2 : x.toNat < step.toNat * i + step.toNat :=
      hdm ▸ Nat.add_lt_add_left hmod _
    have hc1 : (i : ℤ) * step ≤ x := by
      rw [← hxt, ← hst]; exact_mod_cast h1
    have hc2 : x < step * (i : ℤ) + step := by
      rw [← hxt, ← hst]; exact_mod_cast h2
    have hmem : step * (i : ℤ) ∈ base := by
      rw [mem_pythonRange_zero _ _ _ _ hs hb]
      refine ⟨i, ?_, rfl⟩
      rw [lt_pyRangeLen_iff _ _ hs]
      have := mul_comm step (i : ℤ)
      linarith
    refine ⟨step * (i : ℤ), mem_fixLast_of_mem _ _ _ hmem, ?_, ?_⟩
    · linarith [mul_comm step (i : ℤ)]
    · linarith

lemma stepSizes_stride (wX wY wZ : ℤ) (ov : Option ℚ) (s : ℤ) :
    stepSizes wX wY wZ ov (some s) = (s, s, s) := rfl

lemma overlapStep_pos (w : ℤ) (p : ℚ) (hw : 1 ≤ w) (hp1 : p < 1) :
    1 ≤ w - ⌊(w : ℚ) * p⌋ := by
  have h : ⌊(w : ℚ) * p⌋ < w := by
    rw [Int.floor_lt]
    have hw0 : (0 : ℚ) < (w : ℚ) := by exact_mod_cast (by omega : (0 : ℤ) < w)
    calc (w : ℚ) * p < (w : ℚ) * 1 := mul_lt_mul_of_pos_left hp1 hw0
      _ = (w : ℚ) := mul_one _
  omega

lemma overlapStep_le (w : ℤ) (p : ℚ) (hw : 0 ≤ w) (hp : 0 ≤ p) :
    w - ⌊(w : ℚ) * p⌋ ≤ w := by
  have h : 0 ≤ ⌊(w : ℚ) * p⌋ :=
    Int.floor_nonneg.mpr (mul_nonneg (by exact_mod_cast hw) hp)
  omega

lemma stepSizes_valid_pos (wX wY wZ : ℤ) (ov : Option ℚ) (st : Option ℤ)
    (hX : 1 ≤ wX) (hY : 1 ≤ wY) (hZ : 1 ≤ wZ) (hv : validPolicy ov st) :
    1 ≤ (stepSizes wX wY wZ ov st).1 ∧ 1 ≤ (stepSizes wX wY wZ ov st).2.1 ∧
      1 ≤ (stepSizes wX wY wZ ov st).2.2 := by
  cases st with
  | some s =>
    simp only [validPolicy] at hv
    simp only [stepSizes]
    exact ⟨hv, hv, hv⟩
  | none =>
    cases ov with
    | some p =>
      simp only [validPolicy] at hv
      simp only [stepSizes]
      exact ⟨overlapStep_pos _ _ hX hv.2, overlapStep_pos _ _ hY hv.2,
        overlapStep_pos _ _ hZ hv.2⟩
    | none =>
      simp [stepSizes]

lemma extract_offsets_eq_some (height width depth patchsize : ℤ) (ov : Option ℚ)
    (st : Option ℤ) (xs ys zs : List ℤ)
    (hx : axisOffsets width (min patchsize width)
      (stepSizeX height width depth patchsize ov st) = some xs)
    (hy : axisOffsets height (min patchsize height)
      (stepSizeY height width depth patchsize ov st) = some ys)
    (hz : axisOffsets depth (min patchsize depth)
      (stepSizeZ height width depth patchsize ov st) = some zs) :
    extract_offsets height width depth patchsize ov st =
      some (xs.flatMap fun x => ys.map fun y =>
        Offset.mk y (y + min patchsize height) x (x + min patchsize width)) := by
  unfold extract_offsets
  rw [hx, hy, hz]

lemma extract_offsets_inv (height width depth patchsize : ℤ) (ov : Option ℚ)
    (st : Option ℤ) (l : List Offset)
    (hl : extract_offsets height width depth patchsize ov st = some l) :
    ∃ xs ys zs,
      axisOffsets width (min patchsize width)
        (stepSizeX height width depth patchsize ov st) = some xs ∧
      axisOffsets height (min patchsize height)
        (stepSizeY height width depth patchsize ov st) = some ys ∧
      axisOffsets depth (min patchsize depth)
        (stepSizeZ height width depth patchsize ov st) = some zs ∧
      l = xs.flatMap fun x => ys.map fun y =>
        Offset.mk y (y + min patchsize height) x (x + min patchsize width) := by
  unfold extract_offsets at hl
  split at hl
  · rename_i xs ys zs hx hy hz
    exact ⟨xs, ys, zs, hx, hy, hz, (Option.some_injective _ hl).symm⟩
  · exact absurd hl (by simp)

lemma axisOffsets_append_clause (dim window step : ℤ) (l base : List ℤ)
    (hl : axisOffsets dim window step = some l)
    (hb : pythonRange 0 (dim - window + 1) step = some base) :
    (base.getLast? = some (dim - window) → l = base) ∧
    (base.getLast? ≠ some (dim - window) → l = base ++ [dim - window]) := by
  unfold axisOffsets at hl
  rw [hb, Option.map_some'] at hl
  have hl2 : l = fixLast base (dim - window) := (Option.some_injective _ hl).symm
  subst hl2
  unfold fixLast
  constructor
  · intro h; rw [if_pos h]
  · intro h; rw [if_neg h]

lemma flatMap_map_length {α β γ : Type} (xs : List α) (ys : List β) (f : α → β → γ) :
    (xs.flatMap fun x => ys.map (f x)).length = xs.length * ys.length := by
  induction xs with
  | nil => simp
  | cons x t ih =>
    simp only [List.flatMap_cons, List.length_append, List.length_map, ih, List.length_cons]
    ring

lemma flatMap_map_get {α β γ : Type} (xs : List α) (ys : List β) (f : α → β → γ)
    (i j : ℕ) (hi : i < xs.length) (hj : j < ys.length) :
    (xs.flatMap fun x => ys.map (f x)).get? (i * ys.length + j) =
      some (f (xs.get ⟨i, hi⟩) (ys.get ⟨j, hj⟩)) := by
  induction xs generalizing i with
  | nil => exact absurd hi (Nat.not_lt_zero i)
  | cons x t ih =>
    cases i with
    | zero =>
      simp only [List.flatMap_cons]
      have h0 : 0 * ys.length + j = j := by ring
      rw [h0, List.get?_append (by simpa using hj), List.get?_map,
        List.get?_eq_get hj]
      rfl
    | succ i' =>
      simp only [List.flatMap_cons]
      have hidx : (i' + 1) * ys.length + j = ys.length + (i' * ys.length + j) := by ring
      rw [hidx, List.get?_append_right (by simp)]
      have hsub : ys.length + (i' * ys.length + j) - (ys.map (f x)).length =
          i' * ys.length + j := by
        simp [Nat.add_sub_cancel_left]
      rw [hsub]
      exact ih i' (Nat.lt_of_succ_lt_succ hi)

lemma coveragePolicy_valid (patchsize height width : ℤ) (ov : Option ℚ)
    (st : Option ℤ) (h : coveragePolicy patchsize height width ov st) :
    validPolicy ov st := by
  cases st with
  | some s =>
    simp only [coveragePolicy] at h
    exact h.1
  | none =>
    cases ov with
    | some p => exact h
    | none => trivial

lemma extract_offsets_total (height width depth patchsize : ℤ) (ov : Option ℚ)
    (st : Option ℤ)
    (hh : 1 ≤ height) (hw : 1 ≤ width) (hd : 1 ≤ depth) (hp : 1 ≤ patchsize)
    (hv : validPolicy ov st) :
    (extract_offsets height width depth patchsize ov st).isSome = true := by
  have hwX : (1 : ℤ) ≤ min patchsize width := le_min hp hw
  have hwY : (1 : ℤ) ≤ min patchsize height := le_min hp hh
  have hwZ : (1 : ℤ) ≤ min patchsize depth := le_min hp hd
  have hsp := stepSizes_valid_pos _ _ _ ov st hwX hwY hwZ hv
  obtain ⟨xs, hx⟩ := axisOffsets_some width (min patchsize width)
    (stepSizeX height width depth patchsize ov st) hsp.1
  obtain ⟨ys, hy⟩ := axisOffsets_some height (min patchsize height)
    (stepSizeY height width depth patchsize ov st) hsp.2.1
  obtain ⟨zs, hz⟩ := axisOffsets_some depth (min patchsize depth)
    (stepSizeZ height width depth patchsize ov st) hsp.2.2
  rw [extract_offsets_eq_some _ _ _ _ _ _ _ _ _ hx hy hz]
  rfl

lemma extract_offsets_cover_general (height width depth patchsize : ℤ)
    (ov : Option ℚ) (st : Option ℤ) (l : List Offset) (y x : ℤ)
    (hh : 1 ≤ height) (hw : 1 ≤ width) (hd : 1 ≤ depth) (hp : 1 ≤ patchsize)
    (hv : validPolicy ov st)
    (hcaseX : stepSizeX height width depth patchsize ov st ≤ min patchsize width ∨
      min patchsize width = width)
    (hcaseY : stepSizeY height width depth patchsize ov st ≤ min patchsize height ∨
      min patchsize height = height)
    (hl : extract_offsets height width depth patchsize ov st = some l)
    (hy0 : 0 ≤ y) (hyh : y < height) (hx0 : 0 ≤ x) (hxw : x < width) :
    ∃ o ∈ l, inWindow o y x := by
  obtain ⟨xs, ys, zs, hax, hay, haz, rfl⟩ := extract_offsets_inv _ _ _ _ _ _ _ hl
  have hwX : (1 : ℤ) ≤ min patchsize width := le_min hp hw
  have hwY : (1 : ℤ) ≤ min patchsize height := le_min hp hh
  have hwZ : (1 : ℤ) ≤ min patchsize depth := le_min hp hd
  have hsp := stepSizes_valid_pos _ _ _ ov st hwX hwY hwZ hv
  obtain ⟨sx, hsxmem, hsx1, hsx2⟩ := axisOffsets_cover width (min patchsize width) _
    x xs hsp.1 hwX (min_le_right _ _) hcaseX hax hx0 hxw
  obtain ⟨sy, hsymem, hsy1, hsy2⟩ := axisOffsets_cover height (min patchsize height) _
    y ys hsp.2.1 hwY (min_le_right _ _) hcaseY hay hy0 hyh
  refine ⟨Offset.mk sy (sy + min patchsize height) sx (sx + min patchsize width),
    List.mem_flatMap.mpr ⟨sx, hsxmem, List.mem_map.mpr ⟨sy, hsymem, rfl⟩⟩, ?_⟩
  exact ⟨hsy1, hsy2, hsx1, hsx2⟩

/-- C3: for every valid input (all dimensions and the patch size at least 1,
valid policy), every offset produced by `extract_patches` satisfies
`0 ≤ yStart < yEnd ≤ height`, `0 ≤ xStart < xEnd ≤ width`,
`yEnd − yStart = min patchsize height` and `xEnd − xStart = min patchsize width`. -/
theorem C3_bounds (height width depth patchsize : ℤ) (ov : Option ℚ) (st : Option ℤ)
    (l : List Offset)
    (hh : 1 ≤ height) (hw : 1 ≤ width) (hd : 1 ≤ depth) (hp : 1 ≤ patchsize)
    (hv : validPolicy ov st)
    (hl : extract_offsets height width depth patchsize ov st = some l) :
    ∀ o ∈ l,
      (0 ≤ o.yStart ∧ o.yStart < o.yEnd ∧ o.yEnd ≤ height ∧
        o.yEnd - o.yStart = min patchsize height) ∧
      (0 ≤ o.xStart ∧ o.xStart < o.xEnd ∧ o.xEnd ≤ width ∧
        o.xEnd - o.xStart = min patchsize width) := by
  obtain ⟨xs, ys, zs, hax, hay, haz, rfl⟩ := extract_offsets_inv _ _ _ _ _ _ _ hl
  intro o ho
  obtain ⟨x, hxmem, ho⟩ := List.mem_flatMap.mp ho
  obtain ⟨y, hymem, rfl⟩ := List.mem_map.mp ho
  have hwX : (1 : ℤ) ≤ min patchsize width := le_min hp hw
  have hwY : (1 : ℤ) ≤ min patchsize height := le_min hp hh
  have hwZ : (1 : ℤ) ≤ min patchsize depth := le_min hp hd
  have hsp := stepSizes_valid_pos _ _ _ ov st hwX hwY hwZ hv
  have hxb := axisOffsets_mem_bounds width (min patchsize width) _ x xs hsp.1
    (by omega) hax hxmem
  have hyb := axisOffsets_mem_bounds height (min patchsize height) _ y ys hsp.2.1
    (by omega) hay hymem
  dsimp only
  omega

/-- Witness for C3 at height = width = depth = patchsize = 1, default policy,
instantiated at the single emitted offset. -/
theorem C3_bounds_witness :
    ((0 : ℤ) ≤ 0 ∧ (0 : ℤ) < 1 ∧ (1 : ℤ) ≤ 1 ∧ (1 : ℤ) - 0 = min 1 1) ∧
    ((0 : ℤ) ≤ 0 ∧ (0 : ℤ) < 1 ∧ (1 : ℤ) ≤ 1 ∧ (1 : ℤ) - 0 = min 1 1) :=
  C3_bounds 1 1 1 1 none none [Offset.mk 0 1 0 1] (by norm_num) (by norm_num)
    (by norm_num) (by norm_num) trivial (by decide) (Offset.mk 0 1 0 1) (by decide)

/-- C4: for every valid input both per-axis start sequences are nonempty, the
last element of the x sequence is `width − min patchsize width`, the last
element of the y sequence is `height − min patchsize height`, and when the
generated arithmetic progression does not already end at that value the value
is appended as an extra element (otherwise the sequence is the progression
itself). -/
theorem C4_edge_exact (height width depth patchsize : ℤ) (ov : Option ℚ)
    (st : Option ℤ) (xs ys : List ℤ)
    (hh : 1 ≤ height) (hw : 1 ≤ width) (hd : 1 ≤ depth) (hp : 1 ≤ patchsize)
    (hv : validPolicy ov st)
    (hx : axisOffsets width (min patchsize width)
      (stepSizeX height width depth patchsize ov st) = some xs)
    (hy : axisOffsets height (min patchsize height)
      (stepSizeY height width depth patchsize ov st) = some ys) :
    (xs ≠ [] ∧ xs.getLast? = some (width - min patchsize width) ∧
      ∀ base, pythonRange 0 (width - min patchsize width + 1)
          (stepSizeX height width depth patchsize ov st) = some base →
        (base.getLast? ≠ some (width - min patchsize width) →
          xs = base ++ [width - min patchsize width]) ∧
        (base.getLast? = some (width - min patchsize width) → xs = base)) ∧
    (ys ≠ [] ∧ ys.getLast? = some (height - min patchsize height) ∧
      ∀ base, pythonRange 0 (height - min patchsize height + 1)
          (stepSizeY height width depth patchsize ov st) = some base →
        (base.getLast? ≠ some (height - min patchsize height) →
          ys = base ++ [height - min patchsize height]) ∧
        (base.getLast? = some (height - min patchsize height) → ys = base)) := by
  have hwX : (1 : ℤ) ≤ min patchsize width := le_min hp hw
  have hwY : (1 : ℤ) ≤ min patchsize height := le_min hp hh
  have hwZ : (1 : ℤ) ≤ min patchsize depth := le_min hp hd
  have hsp := stepSizes_valid_pos _ _ _ ov st hwX hwY hwZ hv
  have hX := axisOffsets_last _ _ _ _ hsp.1 hx
  have hY := axisOffsets_last _ _ _ _ hsp.2.1 hy
  refine ⟨⟨hX.2.1, hX.2.2, ?_⟩, hY.2.1, hY.2.2, ?_⟩
  · intro base hb
    have h := axisOffsets_append_clause _ _ _ _ _ hx hb
    exact ⟨h.2, h.1⟩
  · intro base hb
    have h := axisOffsets_append_clause _ _ _ _ _ hy hb
    exact ⟨h.2, h.1⟩

/-- Witness for C4 at height = width = depth = patchsize = 1, default policy. -/
theorem C4_edge_exact_witness :
    ([(0 : ℤ)] ≠ [] ∧ [(0 : ℤ)].getLast? = some (1 - min 1 1) ∧
      ∀ base, pythonRange 0 (1 - min 1 1 + 1) (stepSizeX 1 1 1 1 none none) = some base →
        (base.getLast? ≠ some (1 - min 1 1) → [(0 : ℤ)] = base ++ [1 - min 1 1]) ∧
        (base.getLast? = some (1 - min 1 1) → [(0 : ℤ)] = base)) ∧
    ([(0 : ℤ)] ≠ [] ∧ [(0 : ℤ)].getLast? = some (1 - min 1 1) ∧
      ∀ base, pythonRange 0 (1 - min 1 1 + 1) (stepSizeY 1 1 1 1 none none) = some base →
        (base.getLast? ≠ some (1 - min 1 1) → [(0 : ℤ)] = base ++ [1 - min 1 1]) ∧
        (base.getLast? = some (1 - min 1 1) → [(0 : ℤ)] = base)) :=
  C4_edge_exact 1 1 1 1 none none [0] [0] (by norm_num) (by norm_num) (by norm_num)
    (by norm_num) trivial (by decide) (by decide)

/-- C5: the emitted offset list is the Cartesian product of the x starts
(outer loop) with the y starts (inner loop): its length is `|xs| * |ys|` and
entry `i * |ys| + j` is the window starting at `(ys[j], xs[i])`. -/
theorem C5_order (height width depth patchsize : ℤ) (ov : Option ℚ) (st : Option ℤ)
    (l : List Offset)
    (hh : 1 ≤ height) (hw : 1 ≤ width) (hd : 1 ≤ depth) (hp : 1 ≤ patchsize)
    (hv : validPolicy ov st)
    (hl : extract_offsets height width depth patchsize ov st = some l) :
    ∃ xs ys,
      axisOffsets width (min patchsize width)
        (stepSizeX height width depth patchsize ov st) = some xs ∧
      axisOffsets height (min patchsize height)
        (stepSizeY height width depth patchsize ov st) = some ys ∧
      l.length = xs.length * ys.length ∧
      ∀ (i j : ℕ) (hi : i < xs.length) (hj : j < ys.length),
        l.get? (i * ys.length + j) =
          some (Offset.mk (ys.get ⟨j, hj⟩) (ys.get ⟨j, hj⟩ + min patchsize height)
            (xs.get ⟨i, hi⟩) (xs.get ⟨i, hi⟩ + min patchsize width)) := by
  obtain ⟨xs, ys, zs, hax, hay, haz, rfl⟩ := extract_offsets_inv _ _ _ _ _ _ _ hl
  exact ⟨xs, ys, hax, hay, flatMap_map_length xs ys _,
    fun i j hi hj => flatMap_map_get xs ys _ i j hi hj⟩

/-- Witness for C5 at height = width = depth = patchsize = 1, default policy. -/
theorem C5_order_witness :
    ∃ xs ys,
      axisOffsets 1 (min 1 1) (stepSizeX 1 1 1 1 none none) = some xs ∧
      axisOffsets 1 (min 1 1) (stepSizeY 1 1 1 1 none none) = some ys ∧
      ([Offset.mk 0 1 0 1].length = xs.length * ys.length) ∧
      ∀ (i j : ℕ) (hi : i < xs.length) (hj : j < ys.length),
        [Offset.mk 0 1 0 1].get? (i * ys.length + j) =
          some (Offset.mk (ys.get ⟨j, hj⟩) (ys.get ⟨j, hj⟩ + min 1 1)
            (xs.get ⟨i, hi⟩) (xs.get ⟨i, hi⟩ + min 1 1)) :=
  C5_order 1 1 1 1 none none [Offset.mk 0 1 0 1] (by norm_num) (by norm_num)
    (by norm_num) (by norm_num) trivial (by decide)

/-- C7 counterexample: with `patchsize = 0` (≤ 0) and all dimensions 1, the
offset computation of `extract_patches` does not fail at all — it returns a
list of degenerate windows — refuting the claim that `patchsize ≤ 0` fails
with `InvalidArgument`. -/
theorem C7_counterexample :
    extract_offsets 1 1 1 0 none none =
      some [Offset.mk 0 0 0 0, Offset.mk 1 1 0 0, Offset.mk 0 0 1 1,
        Offset.mk 1 1 1 1] := by
  decide

/-- C7 amended: `extract_patches` performs no input validation; for every
patch size ≥ 1, dimensions ≥ 1 and valid policy the offset computation
succeeds (the only conceivable failure is a non-positive step reaching
`range`, which valid policies exclude). -/
theorem C7_no_validation (height width depth patchsize : ℤ) (ov : Option ℚ)
    (st : Option ℤ)
    (hh : 1 ≤ height) (hw : 1 ≤ width) (hd : 1 ≤ depth) (hp : 1 ≤ patchsize)
    (hv : validPolicy ov st) :
    (extract_offsets height width depth patchsize ov st).isSome = true :=
  extract_offsets_total height width depth patchsize ov st hh hw hd hp hv

/-- Witness for the amended C7 at a non-trivial concrete input. -/
theorem C7_no_validation_witness :
    (extract_offsets 2 3 1 2 none none).isSome = true :=
  C7_no_validation 2 3 1 2 none none (by norm_num) (by norm_num) (by norm_num)
    (by norm_num) trivial

/-- C10: when both `overlap` and `stride` are supplied, `stride` wins — the
step sizes all equal the stride and the offset list is the one obtained with
only `stride` supplied. -/
theorem C10_stride_precedence (height width depth patchsize : ℤ) (p : ℚ) (s : ℤ) :
    stepSizes (min patchsize width) (min patchsize height) (min patchsize depth)
        (some p) (some s) = (s, s, s) ∧
    extract_offsets height width depth patchsize (some p) (some s) =
      extract_offsets height width depth patchsize none (some s) :=
  ⟨rfl, rfl⟩

/-- C1 counterexample: with height 1, width 10, patchsize 2 and the valid
policy stride = 5, the in-range coordinate (0, 2) lies in no emitted window:
coverage fails for a stride larger than the window size. -/
theorem C1_counterexample :
    validPolicy none (some 5) ∧
    extract_offsets 1 10 1 2 none (some 5) =
      some [Offset.mk 0 1 0 2, Offset.mk 0 1 5 7, Offset.mk 0 1 8 10] ∧
    ([Offset.mk 0 1 0 2, Offset.mk 0 1 5 7, Offset.mk 0 1 8 10].all
      (fun o => !(decide (inWindow o 0 2)))) = true := by
  refine ⟨show (1 : ℤ) ≤ 5 by norm_num, by decide, by decide⟩

/-- C1 amended: full coverage holds for every height, width, patchSize ≥ 1
and policy that is an overlap fraction in `[0,1)`, the default, or a stride
that also does not exceed the clamped window size of either tiled axis
(`stride ≤ min patchsize width` and `stride ≤ min patchsize height`). -/
theorem C1_coverage (height width depth patchsize : ℤ) (ov : Option ℚ)
    (st : Option ℤ) (l : List Offset) (y x : ℤ)
    (hh : 1 ≤ height) (hw : 1 ≤ width) (hd : 1 ≤ depth) (hp : 1 ≤ patchsize)
    (hv : coveragePolicy patchsize height width ov st)
    (hl : extract_offsets height width depth patchsize ov st = some l)
    (hy0 : 0 ≤ y) (hyh : y < height) (hx0 : 0 ≤ x) (hxw : x < width) :
    ∃ o ∈ l, inWindow o y x := by
  have hwX : (1 : ℤ) ≤ min patchsize width := le_min hp hw
  have hwY : (1 : ℤ) ≤ min patchsize height := le_min hp hh
  have hvv := coveragePolicy_valid _ _ _ _ _ hv
  have hcaseX : stepSizeX height width depth patchsize ov st ≤ min patchsize width ∨
      min patchsize width = width := by
    left
    cases st with
    | some s =>
      simp only [coveragePolicy] at hv
      simpa [stepSizeX, stepSizes] using hv.2.1
    | none =>
      cases ov with
      | some q =>
        simp only [coveragePolicy] at hv
        simpa [stepSizeX, stepSizes] using
          overlapStep_le (min patchsize width) q (by omega) hv.1
      | none =>
        simpa [stepSizeX, stepSizes] using hwX
  have hcaseY : stepSizeY height width depth patchsize ov st ≤ min patchsize height ∨
      min patchsize height = height := by
    left
    cases st with
    | some s =>
      simp only [coveragePolicy] at hv
      simpa [stepSizeY, stepSizes] using hv.2.2
    | none =>
      cases ov with
      | some q =>
        simp only [coveragePolicy] at hv
        simpa [stepSizeY, stepSizes] using
          overlapStep_le (min patchsize height) q (by omega) hv.1
      | none =>
        simpa [stepSizeY, stepSizes] using hwY
  exact extract_offsets_cover_general height width depth patchsize ov st l y x
    hh hw hd hp hvv hcaseX hcaseY hl hy0 hyh hx0 hxw

/-- Witness for the amended C1 at a concrete input. -/
theorem C1_coverage_witness :
    ∃ o ∈ [Offset.mk 0 1 0 1], inWindow o 0 0 :=
  C1_coverage 1 1 1 1 none none [Offset.mk 0 1 0 1] 0 0 (by norm_num) (by norm_num)
    (by norm_num) (by norm_num) trivial (by decide) (by norm_num) (by norm_num)
    (by norm_num) (by norm_num)

lemma numpyAssign_eq_none (buf : ℤ → ℤ → ℤ) (o : Offset) (r : SegResult) :
    numpyAssign buf o r = none ↔ ¬ broadcastOk r o := by
  unfold numpyAssign
  split
  · rename_i hcond
    simp [hcond]
  · rename_i hcond
    simp [hcond]

lemma reconAux_none_iff (indices : List Offset) (results : List SegResult) :
    ∀ (i : ℕ) (buf : ℤ → ℤ → ℤ),
      reconAux indices results i buf = none ↔
        ∃ j, j < results.length ∧
          (indices.length ≤ i + j ∨
            ∃ r o, results.get? j = some r ∧ indices.get? (i + j) = some o ∧
              ¬ broadcastOk r o) := by
  induction results with
  | nil =>
    intro i buf
    simp [reconAux]
  | cons r rs ih =>
    intro i buf
    cases hidx : indices.get? i with
    | none =>
      have hlen : indices.length ≤ i := List.get?_eq_none.mp hidx
      simp only [reconAux, hidx]
      constructor
      · intro _
        exact ⟨0, Nat.succ_pos _, Or.inl (by omega)⟩
      · intro _
        trivial
    | some o =>
      have hi2 : i < indices.length := by
        by_contra hc
        push_neg at hc
        rw [List.get?_eq_none.mpr hc] at hidx
        exact Option.noConfusion hidx
      cases hasn : numpyAssign buf o r with
      | none =>
        have hbk : ¬ broadcastOk r o := (numpyAssign_eq_none _ _ _).mp hasn
        simp only [reconAux, hidx, hasn]
        constructor
        · intro _
          exact ⟨0, Nat.succ_pos _, Or.inr ⟨r, o, rfl, by simpa using hidx, hbk⟩⟩
        · intro _
          trivial
      | some buf2 =>
        have hbk : broadcastOk r o := by
          by_contra hc
          have h2 := (numpyAssign_eq_none buf o r).mpr hc
          rw [h2] at hasn
          exact Option.noConfusion hasn
        simp only [reconAux, hidx, hasn]
        rw [ih (i + 1) buf2]
        constructor
        · rintro ⟨j, hj, hP⟩
          refine ⟨j + 1, Nat.succ_lt_succ hj, ?_⟩
          rcases hP with hP | ⟨r2, o2, hr2, ho2, hbk2⟩
          · exact Or.inl (by omega)
          · refine Or.inr ⟨r2, o2, by simpa using hr2, ?_, hbk2⟩
            have he : i + (j + 1) = i + 1 + j := by omega
            rw [he]
            exact ho2
        · rintro ⟨j, hj, hP⟩
          cases j with
          | zero =>
            exfalso
            rcases hP with hP | ⟨r2, o2, hr2, ho2, hbk2⟩
            · omega
            · rw [List.get?_cons_zero] at hr2
              have hr3 : r2 = r := (Option.some_injective _ hr2).symm
              rw [Nat.add_zero, hidx] at ho2
              have ho3 : o2 = o := (Option.some_injective _ ho2).symm
              subst hr3
              subst ho3
              exact hbk2 hbk
          | succ j2 =>
            refine ⟨j2, Nat.lt_of_succ_lt_succ hj, ?_⟩
            rcases hP with hP | ⟨r2, o2, hr2, ho2, hbk2⟩
            · exact Or.inl (by omega)
            · refine Or.inr ⟨r2, o2, by simpa using hr2, ?_, hbk2⟩
              have he : i + 1 + j2 = i + (j2 + 1) := by omega
              rw [he]
              exact ho2

/-- C8 counterexample: reconstruction does not fail when the result sequence
is shorter than the offset list (the remaining regions just stay zero), and
it also does not fail on a result whose spatial extent disagrees with its
offset but is numpy-broadcastable (a 1×1 result assigned to a 2×2 window) —
refuting the claimed "fails iff a length or extent mismatch" equivalence. -/
theorem C8_counterexample :
    (reconstructed_seg_mask [Offset.mk 0 1 0 1] []).isSome = true ∧
    ([] : List SegResult).length ≠ [Offset.mk 0 1 0 1].length ∧
    (reconstructed_seg_mask [Offset.mk 0 2 0 2]
      [SegResult.mk 1 1 (fun _ _ => 7)]).isSome = true ∧
    (SegResult.mk 1 1 (fun _ _ => 7)).h ≠
      (Offset.mk 0 2 0 2).yEnd - (Offset.mk 0 2 0 2).yStart := by
  refine ⟨rfl, by decide, rfl, by decide⟩

/-- C8 amended: the reconstruction loop fails (with an exception) iff some
consumed result index `j` either has no offset (`IndexError`: the results
outnumber the offsets) or its result is not numpy-broadcastable to its
offset's window; in particular a shorter, extent-matching result sequence
always succeeds. -/
theorem C8_failure_iff (indices : List Offset) (results : List SegResult) :
    reconstructed_seg_mask indices results = none ↔
      ∃ j, j < results.length ∧
        (indices.length ≤ j ∨
          ∃ r o, results.get? j = some r ∧ indices.get? j = some o ∧
            ¬ broadcastOk r o) := by
  unfold reconstructed_seg_mask
  rw [reconAux_none_iff indices results 0 (fun _ _ => 0)]
  simp only [Nat.zero_add]

lemma reconAux_identity (data : ℤ → ℤ → ℤ) (l : List Offset) :
    ∀ (t s : List Offset) (buf : ℤ → ℤ → ℤ), l = s ++ t →
      ∃ buf2, reconAux l (t.map (extractResult data)) s.length buf = some buf2 ∧
        ∀ y x : ℤ,
          ((∃ o ∈ t, inWindow o y x) → buf2 y x = data y x) ∧
          ((∀ o ∈ t, ¬ inWindow o y x) → buf2 y x = buf y x) := by
  intro t
  induction t with
  | nil =>
    intro s buf hl
    refine ⟨buf, by simp [reconAux], fun y x => ⟨?_, fun _ => rfl⟩⟩
    rintro ⟨o, ho, _⟩
    exact absurd ho (List.not_mem_nil o)
  | cons o t2 ih =>
    intro s buf hl
    have hidx : l.get? s.length = some o := by
      rw [hl, List.get?_append_right (le_refl _)]
      simp
    have hbk : broadcastOk (extractResult data o) o := ⟨Or.inl rfl, Or.inl rfl⟩
    set bufW : ℤ → ℤ → ℤ := fun yy xx =>
      if inWindow o yy xx then
        (extractResult data o).vals
          (if (extractResult data o).h = 1 then 0 else yy - o.yStart)
          (if (extractResult data o).w = 1 then 0 else xx - o.xStart)
      else buf yy xx with hbufW
    have hasn : numpyAssign buf o (extractResult data o) = some bufW := by
      unfold numpyAssign
      rw [if_pos hbk, hbufW]
    have hval : ∀ yy xx, inWindow o yy xx → bufW yy xx = data yy xx := by
      intro yy xx hin
      have hin2 := hin
      unfold inWindow at hin2
      obtain ⟨hb1, hb2, hb3, hb4⟩ := hin2
      rw [hbufW]
      dsimp only
      rw [if_pos hin]
      dsimp only [extractResult]
      split_ifs with hH hW hW
      · rw [show o.yStart + (0 : ℤ) = yy by omega, show o.xStart + (0 : ℤ) = xx by omega]
      · rw [show o.yStart + (0 : ℤ) = yy by omega,
          show o.xStart + (xx - o.xStart) = xx by omega]
      · rw [show o.yStart + (yy - o.yStart) = yy by omega,
          show o.xStart + (0 : ℤ) = xx by omega]
      · rw [show o.yStart + (yy - o.yStart) = yy by omega,
          show o.xStart + (xx - o.xStart) = xx by omega]
    obtain ⟨buf3, hrec, hprop⟩ := ih (s ++ [o]) bufW (by rw [hl, List.append_assoc]; rfl)
    refine ⟨buf3, ?_, ?_⟩
    · rw [List.map_cons]
      simp only [reconAux, hidx, hasn]
      simpa using hrec
    · intro y x
      constructor
      · rintro ⟨o2, ho2, hin2⟩
        rcases List.mem_cons.mp ho2 with h2 | h2
        · subst h2
          by_cases hc : ∃ o3 ∈ t2, inWindow o3 y x
          · exact (hprop y x).1 hc
          · push_neg at hc
            rw [(hprop y x).2 hc]
            exact hval y x hin2
        · exact (hprop y x).1 ⟨o2, h2, hin2⟩
      · intro hnone
        rw [(hprop y x).2 (fun o3 h3 => hnone o3 (List.mem_cons_of_mem _ h3))]
        rw [hbufW]
        dsimp only
        rw [if_neg (hnone o (List.mem_cons_self _ _))]

/-- C2: round-trip identity in the non-overlapping case — with
stride = patchsize, extracting all patches of any image, applying the
identity model and stitching the results back in offset-list order
reproduces the input at every pixel. -/
theorem C2_roundtrip (data : ℤ → ℤ → ℤ) (height width depth patchsize : ℤ)
    (hh : 1 ≤ height) (hw : 1 ≤ width) (hd : 1 ≤ depth) (hp : 1 ≤ patchsize) :
    ∃ l buf,
      extract_offsets height width depth patchsize none (some patchsize) = some l ∧
      reconstructed_seg_mask l (l.map (extractResult data)) = some buf ∧
      ∀ y x : ℤ, 0 ≤ y → y < height → 0 ≤ x → x < width → buf y x = data y x := by
  have hv : validPolicy none (some patchsize) := hp
  have htotal := extract_offsets_total height width depth patchsize none
    (some patchsize) hh hw hd hp hv
  obtain ⟨l, hl⟩ := Option.isSome_iff_exists.mp htotal
  have hcaseX : stepSizeX height width depth patchsize none (some patchsize) ≤
      min patchsize width ∨ min patchsize width = width := by
    rcases le_or_lt patchsize width with hc | hc
    · left
      have he : stepSizeX height width depth patchsize none (some patchsize) =
          patchsize := rfl
      rw [he]
      exact le_min (le_refl _) hc
    · right
      exact min_eq_right (le_of_lt hc)
  have hcaseY : stepSizeY height width depth patchsize none (some patchsize) ≤
      min patchsize height ∨ min patchsize height = height := by
    rcases le_or_lt patchsize height with hc | hc
    · left
      have he : stepSizeY height width depth patchsize none (some patchsize) =
          patchsize := rfl
      rw [he]
      exact le_min (le_refl _) hc
    · right
      exact min_eq_right (le_of_lt hc)
  obtain ⟨buf2, hrec, hprop⟩ := reconAux_identity data l l [] (fun _ _ => 0)
    (List.nil_append l).symm
  refine ⟨l, buf2, hl, ?_, ?_⟩
  · unfold reconstructed_seg_mask
    exact hrec
  · intro y x hy0 hyh hx0 hxw
    have hcov := extract_offsets_cover_general height width depth patchsize none
      (some patchsize) l y x hh hw hd hp hv hcaseX hcaseY hl hy0 hyh hx0 hxw
    exact (hprop y x).1 hcov

/-- Witness for C2 at a concrete image and tiling. -/
theorem C2_roundtrip_witness :
    ∃ l buf,
      extract_offsets 2 3 1 2 none (some 2) = some l ∧
      reconstructed_seg_mask l
        (l.map (extractResult (fun y x => 10 * y + x))) = some buf ∧
      ∀ y x : ℤ, 0 ≤ y → y < 2 → 0 ≤ x → x < 3 → buf y x = 10 * y + x :=
  C2_roundtrip (fun y x => 10 * y + x) 2 3 1 2 (by norm_num) (by norm_num)
    (by norm_num) (by norm_num)

/-- C6: the reconstruction loop consumes patch files in lexicographically
sorted name order while names carry unpadded indices; for every session with
more than 10 patches the consumed order disagrees with the numeric
(offset-list) order at some position. -/
theorem C6_sort_hazard (n : ℕ) (hn : 11 ≤ n) :
    ∃ i, i < n ∧ (sortedPatchFileNames n).get? i ≠ some (patchFileName i) := by
  by_contra hc
  push_neg at hc
  have hlen : (sortedPatchFileNames n).length = n := by
    unfold sortedPatchFileNames
    rw [List.length_insertionSort]
    simp [patchFileNames]
  have hsorted : List.Sorted (fun a b : String => a ≤ b) (sortedPatchFileNames n) :=
    List.sorted_insertionSort _ _
  have h2 : 2 < (sortedPatchFileNames n).length := by omega
  have h10 : 10 < (sortedPatchFileNames n).length := by omega
  have e2 : (sortedPatchFileNames n).get ⟨2, h2⟩ = patchFileName 2 := by
    have hq := hc 2 (by omega)
    rw [List.get?_eq_get h2] at hq
    exact Option.some_injective _ hq
  have e10 : (sortedPatchFileNames n).get ⟨10, h10⟩ = patchFileName 10 := by
    have hq := hc 10 (by omega)
    rw [List.get?_eq_get h10] at hq
    exact Option.some_injective _ hq
  have hrel := hsorted.rel_get_of_lt (a := ⟨2, h2⟩) (b := ⟨10, h10⟩)
    (by simp [Fin.lt_def])
  rw [e2, e10] at hrel
  have hfalse : ¬ (patchFileName 2 ≤ patchFileName 10) := by
    unfold patchFileName
    rw [String.le_iff_toList_le]
    decide
  exact hfalse hrel

/-- Witness for C6 at the smallest hazardous patch count. -/
theorem C6_sort_hazard_witness :
    11 ≤ 11 ∧
    ∃ i, i < 11 ∧ (sortedPatchFileNames 11).get? i ≠ some (patchFileName i) :=
  ⟨by norm_num, C6_sort_hazard 11 (by norm_num)⟩

/-- C9: `cleanup` on a freshly constructed instance succeeds and is a no-op,
and after any successful `cleanup` the instance's `temp_dir` is `None`, so a
second `cleanup` also succeeds and changes nothing. -/
theorem C9_idempotent_cleanup (st : EMPatchesState) (fs : List ℕ)
    (st2 : EMPatchesState) (fs2 : List ℕ)
    (h : cleanup st fs = some (st2, fs2)) :
    (∀ fs0 : List ℕ, cleanup initState fs0 = some (initState, fs0)) ∧
    st2.temp_dir = none ∧ cleanup st2 fs2 = some (st2, fs2) := by
  have htd : st2.temp_dir = none := by
    unfold cleanup at h
    cases hst : st.temp_dir with
    | none =>
      rw [hst] at h
      have h2 := Option.some_injective _ h
      have h3 : st = st2 := congrArg Prod.fst h2
      rw [← h3]
      exact hst
    | some d =>
      rw [hst] at h
      dsimp only at h
      unfold rmtree at h
      split at h
      · rw [Option.map_some'] at h
        have h2 := Option.some_injective _ h
        have h3 : EMPatchesState.mk none = st2 := congrArg Prod.fst h2
        rw [← h3]
      · rw [Option.map_none'] at h
        exact absurd h (by simp)
  refine ⟨fun fs0 => rfl, htd, ?_⟩
  unfold cleanup
  rw [htd]

/-- Witness for C9: a cleanup that actually removes a directory, followed by
the asserted state. -/
theorem C9_idempotent_cleanup_witness :
    (∀ fs0 : List ℕ, cleanup initState fs0 = some (initState, fs0)) ∧
    (EMPatchesState.mk none).temp_dir = none ∧
    cleanup (EMPatchesState.mk none) [] = some (EMPatchesState.mk none, []) :=
  C9_idempotent_cleanup (EMPatchesState.mk (some 0)) [0] (EMPatchesState.mk none) []
    rfl
